import Mathlib

/-
Verification of the strfrui event-sifter combinator engine and rate-limiting
admission controller, as a shallow embedding of the Go sources.

Sources embedded here:
  - the strfrui root package (Action, Input, Result, Input.Accept and friends,
    SourceType.IsEndUser),
  - sifters/combinators.go (pipelineSifter.Sift, oneOfSifter.Sift, moddedSifter,
    onlyIfCond.evalCond, the OnlyIf / OnlyIfNot / AcceptEarly modifiers),
  - sifters/types.go (shouldAccept with its Mode and inputMatchResult integer
    constants, ShadowReject / RejectWithMsg / RejectWithMsgFromInput),
  - sifters/ratelimit/sifter.go (SifterUnit.Sift, ByUser, ByUserAndKind and their
    key-derivation closures; the GCRA rate limiter itself lives in the external
    throttled library and is modelled from the spec, see gcraCheck below).

Go (*Result, error) pairs are embedded as Except Err Result, with Err := String
standing for an arbitrary Go error value.  The pipeline's result variable may be
nil when it returns, so the pipeline evaluator produces Except Err (Option Result).
Alongside each combinator evaluator there is a trace function that returns the
indices of the children whose underlying Sift method gets invoked; the trace
function mirrors the very same loop and makes "this child is (not) evaluated"
statements expressible.
-/

namespace Strfrui

/-- Action of a sifter result (strfrui root package constants ActionAccept,
ActionReject, ActionShadowReject).  In Go, Action is a string type; only these
three constants are ever constructed by the library. -/
inductive Action where
  | accept
  | reject
  | shadowReject
deriving DecidableEq, Repr

/-- The fields of a Nostr event that the embedded code reads (nbd-wtf/go-nostr
Event: ID, PubKey, Kind). -/
structure Event where
  id : String
  pubkey : String
  kind : Int
deriving DecidableEq, Repr

/-- Sifter input (strfrui.Input).  SourceType is a Go string; the Type and
ReceivedAt fields are never read by the embedded code and are omitted. -/
structure Input where
  event : Event
  sourceType : String
  sourceInfo : String
deriving DecidableEq, Repr

/-- Sifter output (strfrui.Result). -/
structure Result where
  id : String
  action : Action
  msg : String
deriving DecidableEq, Repr

/-- SourceType.IsEndUser from the strfrui root package: true exactly for the
"IP4" and "IP6" source types. -/
def isEndUser (st : String) : Bool :=
  st == "IP4" || st == "IP6"

/-- Input.Accept from the strfrui root package (the nil error component of the
Go return value is added by the caller in this embedding). -/
def Input.Accept (i : Input) : Result :=
  { id := i.event.id, action := Action.accept, msg := "" }

/-- Input.Reject from the strfrui root package. -/
def Input.Reject (i : Input) (msg : String) : Result :=
  { id := i.event.id, action := Action.reject, msg := msg }

/-- Input.ShadowReject from the strfrui root package. -/
def Input.ShadowRejectRes (i : Input) : Result :=
  { id := i.event.id, action := Action.shadowReject, msg := "" }

/-- Go error values, abstracted as strings. -/
abbrev Err := String

/-- The strfrui.Sifter interface: Sift(input) (Result, error). -/
abbrev Sifter := Input → Except Err Result

/-- onlyIfCond from sifters/combinators.go: a guard condition sifter together
with the required polarity (ifAccepted). -/
structure onlyIfCond where
  cond : Sifter
  ifAccepted : Bool

/-- moddedSifter from sifters/combinators.go: a sifter wrapped with a label
(diagnostic only), the accept-early flag, and an optional guard condition. -/
structure moddedSifter where
  s : Sifter
  label : String
  acceptEarly : Bool
  onlyIfCond : Option onlyIfCond

/-- onlyIfCond.evalCond from sifters/combinators.go: evaluate the condition
sifter; on success, report whether the condition's outcome matches the required
polarity. -/
def evalCond (g : onlyIfCond) (input : Input) : Except Err Bool :=
  match g.cond input with
  | Except.error e => Except.error e
  | Except.ok res =>
      if g.ifAccepted == (res.action == Action.accept) then Except.ok true
      else Except.ok false

/-- WithMod from sifters/combinators.go. -/
def WithMod (s : Sifter) : moddedSifter :=
  { s := s, label := "", acceptEarly := false, onlyIfCond := none }

/-- moddedSifter.Label from sifters/combinators.go. -/
def moddedSifter.Label (m : moddedSifter) (l : String) : moddedSifter :=
  { m with label := l }

/-- moddedSifter.AcceptEarly from sifters/combinators.go. -/
def moddedSifter.AcceptEarly (m : moddedSifter) : moddedSifter :=
  { m with acceptEarly := true }

/-- moddedSifter.OnlyIf from sifters/combinators.go. -/
def moddedSifter.OnlyIf (m : moddedSifter) (cond : Sifter) : moddedSifter :=
  { m with onlyIfCond := some { cond := cond, ifAccepted := true } }

/-- moddedSifter.OnlyIfNot from sifters/combinators.go. -/
def moddedSifter.OnlyIfNot (m : moddedSifter) (cond : Sifter) : moddedSifter :=
  { m with onlyIfCond := some { cond := cond, ifAccepted := false } }

/-- The rejection functions constructible through the sifters package API
(sifters/types.go ShadowReject, RejectWithMsg, RejectWithMsgFromInput; the
internal package used by the ratelimit package defines the same three). -/
inductive RejectionFn where
  | shadowReject
  | rejectWithMsg (msg : String)
  | rejectWithMsgFromInput (getMsg : Input → String)

/-- Applying a RejectionFn to an input, following the three constructors in
sifters/types.go. -/
def applyRejectionFn : RejectionFn → Input → Result
  | RejectionFn.shadowReject, input =>
      { id := input.event.id, action := Action.shadowReject, msg := "" }
  | RejectionFn.rejectWithMsg msg, input =>
      { id := input.event.id, action := Action.reject, msg := msg }
  | RejectionFn.rejectWithMsgFromInput getMsg, input =>
      { id := input.event.id, action := Action.reject, msg := getMsg input }

/-- pipelineSifter.Sift from sifters/combinators.go, with the loop expressed as
recursion over the children.  The accumulator is the Go res variable (nil at
entry, holding the last evaluated child's result afterwards); the whole loop
returns it when it falls through, which is why the evaluator produces an
Option Result. -/
def pipelineSiftAux (input : Input) : Option Result → List moddedSifter → Except Err (Option Result)
  | res, [] => Except.ok res
  | res, child :: rest =>
    let go : Except Err (Option Result) :=
      match child.s input with
      | Except.error e => Except.error e
      | Except.ok r =>
          if child.acceptEarly && (r.action == Action.accept) then Except.ok (some r)
          else if !(r.action == Action.accept) then Except.ok (some r)
          else pipelineSiftAux input (some r) rest
    match child.onlyIfCond with
    | some g =>
        match evalCond g input with
        | Except.error e => Except.error e
        | Except.ok condMet => if condMet then go else pipelineSiftAux input res rest
    | none => go

/-- Sift of a Pipeline built from the given children. -/
def pipelineSift (cs : List moddedSifter) (input : Input) : Except Err (Option Result) :=
  pipelineSiftAux input none cs

/-- Indices of the children whose underlying Sift is invoked during
pipelineSifter.Sift; mirrors the same loop as pipelineSiftAux. -/
def pipelineTraceAux (input : Input) : Nat → List moddedSifter → List Nat
  | _, [] => []
  | i, child :: rest =>
    let go : List Nat :=
      match child.s input with
      | Except.error _ => [i]
      | Except.ok r =>
          if child.acceptEarly && (r.action == Action.accept) then [i]
          else if !(r.action == Action.accept) then [i]
          else i :: pipelineTraceAux input (i + 1) rest
    match child.onlyIfCond with
    | some g =>
        match evalCond g input with
        | Except.error _ => []
        | Except.ok condMet => if condMet then go else pipelineTraceAux input (i + 1) rest
    | none => go

/-- Trace of a Pipeline evaluation, starting at child index 0. -/
def pipelineTrace (cs : List moddedSifter) (input : Input) : List Nat :=
  pipelineTraceAux input 0 cs

/-- oneOfSifter.Sift from sifters/combinators.go: accept on the first accepting
non-skipped child, otherwise fall through to the configured rejection. -/
def oneOfSiftAux (input : Input) (rej : RejectionFn) : List moddedSifter → Except Err Result
  | [] => Except.ok (applyRejectionFn rej input)
  | child :: rest =>
    let go : Except Err Result :=
      match child.s input with
      | Except.error e => Except.error e
      | Except.ok r =>
          if r.action == Action.accept then Except.ok r
          else oneOfSiftAux input rej rest
    match child.onlyIfCond with
    | some g =>
        match evalCond g input with
        | Except.error e => Except.error e
        | Except.ok condMet => if condMet then go else oneOfSiftAux input rej rest
    | none => go

/-- Sift of a OneOf with the given children and rejection function (the
OneOf constructor's default is RejectionFn.rejectWithMsg
"blocked: any of sub-sifters didn't accept the event"). -/
def oneOfSift (cs : List moddedSifter) (rej : RejectionFn) (input : Input) : Except Err Result :=
  oneOfSiftAux input rej cs

/-- Indices of the children whose underlying Sift is invoked during
oneOfSifter.Sift. -/
def oneOfTraceAux (input : Input) : Nat → List moddedSifter → List Nat
  | _, [] => []
  | i, child :: rest =>
    let go : List Nat :=
      match child.s input with
      | Except.error _ => [i]
      | Except.ok r =>
          if r.action == Action.accept then [i]
          else i :: oneOfTraceAux input (i + 1) rest
    match child.onlyIfCond with
    | some g =>
        match evalCond g input with
        | Except.error _ => []
        | Except.ok condMet => if condMet then go else oneOfTraceAux input (i + 1) rest
    | none => go

/-- Trace of a OneOf evaluation, starting at child index 0. -/
def oneOfTrace (cs : List moddedSifter) (input : Input) : List Nat :=
  oneOfTraceAux input 0 cs

/-- Whether an Except value is a success. -/
def exceptIsOk {A : Type} : Except Err A → Bool
  | Except.ok _ => true
  | Except.error _ => false

/-- Whether an optional guard skips the child on this input: there is a guard
and its condition evaluates to ok false (the skip rule of pipelineSifter.Sift
and oneOfSifter.Sift); a guard error is not a skip. -/
def skippedGuard : Option onlyIfCond → Input → Bool
  | some g, input =>
      match evalCond g input with
      | Except.ok b => !b
      | Except.error _ => false
  | none, _ => false

/-- A child is skipped when its guard condition evaluates to ok false. -/
def isSkipped (c : moddedSifter) (input : Input) : Bool :=
  skippedGuard c.onlyIfCond input

/-- A child accepts the input (its Sift returns ok with ActionAccept). -/
def childAccepts (c : moddedSifter) (input : Input) : Bool :=
  match c.s input with
  | Except.ok r => r.action == Action.accept
  | Except.error _ => false

/-- Whether an optional guard evaluates without error on this input. -/
def guardOk : Option onlyIfCond → Input → Bool
  | some g, input => exceptIsOk (evalCond g input)
  | none, _ => true

/-- Neither the child's guard (if any) nor the child's own Sift returns an
error on this input. -/
def childOk (c : moddedSifter) (input : Input) : Bool :=
  guardOk c.onlyIfCond input && exceptIsOk (c.s input)

/-- The guard of the child lets it be evaluated: either there is no guard, or
the guard condition evaluates to ok true. -/
def guardPasses (c : moddedSifter) (input : Input) : Prop :=
  c.onlyIfCond = none ∨ ∃ g, c.onlyIfCond = some g ∧ evalCond g input = Except.ok true

/-- Whether a (possibly absent) result carries ActionAccept. -/
def resAccepts : Option Result → Bool
  | some r => r.action == Action.accept
  | none => false

/-- Whether a pipeline outcome is an Accept decision. -/
def pipelineResultAccepts : Except Err (Option Result) → Bool
  | Except.ok res => resAccepts res
  | Except.error _ => false

/-- Whether a oneOf outcome is an Accept decision. -/
def oneOfResultAccepts : Except Err Result → Bool
  | Except.ok r => r.action == Action.accept
  | Except.error _ => false

/-- Index and result of the first non-skipped child whose Sift succeeds with a
non-Accept decision (the child a fail-fast Pipeline stops at).  An erroring
child yields none: no decision is produced at all in that case. -/
def firstNonAcceptingAux (input : Input) : Nat → List moddedSifter → Option (Nat × Result)
  | _, [] => none
  | i, c :: rest =>
    if isSkipped c input then firstNonAcceptingAux input (i + 1) rest
    else
      match c.s input with
      | Except.ok r =>
          if r.action == Action.accept then firstNonAcceptingAux input (i + 1) rest
          else some (i, r)
      | Except.error _ => none

/-- First non-skipped, non-accepting child of a pipeline, from index 0. -/
def firstNonAccepting (cs : List moddedSifter) (input : Input) : Option (Nat × Result) :=
  firstNonAcceptingAux input 0 cs

/-- Index and result of the first non-skipped child whose Sift succeeds with an
Accept decision (the child a OneOf stops at). -/
def firstAcceptingAux (input : Input) : Nat → List moddedSifter → Option (Nat × Result)
  | _, [] => none
  | i, c :: rest =>
    if isSkipped c input then firstAcceptingAux input (i + 1) rest
    else
      match c.s input with
      | Except.ok r =>
          if r.action == Action.accept then some (i, r)
          else firstAcceptingAux input (i + 1) rest
      | Except.error _ => none

/-- First non-skipped, accepting child of a OneOf, from index 0. -/
def firstAccepting (cs : List moddedSifter) (input : Input) : Option (Nat × Result) :=
  firstAcceptingAux input 0 cs

/-- Mode constant Allow from sifters/types.go (iota + 1). -/
def Allow : Int := 1

/-- Mode constant Deny from sifters/types.go. -/
def Deny : Int := 2

/-- inputMatchResult constant inputMatch from sifters/types.go (iota + 1). -/
def inputMatch : Int := 1

/-- inputMatchResult constant inputMismatch from sifters/types.go. -/
def inputMismatch : Int := 2

/-- inputMatchResult constant inputAlwaysAccept from sifters/types.go. -/
def inputAlwaysAccept : Int := 3

/-- inputMatchResult constant inputAlwaysReject from sifters/types.go. -/
def inputAlwaysReject : Int := 4

/-- shouldAccept from sifters/types.go.  Mode and inputMatchResult are Go
integer types, so both arguments are integers here and every switch carries the
default branch returning false. -/
def shouldAccept (matchRes : Int) (mode : Int) : Bool :=
  if matchRes == inputAlwaysAccept then true
  else if matchRes == inputAlwaysReject then false
  else if matchRes == inputMatch then
    (if mode == Allow then true
     else if mode == Deny then false
     else false)
  else if matchRes == inputMismatch then
    (if mode == Allow then false
     else if mode == Deny then true
     else false)
  else false

/-- Key-to-TAT store of the rate limiter, embedded as an association list
(the Go code uses an in-memory memstore keyed by the derived limit key). -/
abbrev Store := List (String × Int)

/-- Lookup in the store. -/
def storeGet : Store → String → Option Int
  | [], _ => none
  | (k, v) :: rest, key => if k == key then some v else storeGet rest key

/-- Update (or insert) a key's TAT in the store. -/
def storeSet : Store → String → Int → Store
  | [], key, v => [(key, v)]
  | (k, w) :: rest, key, v =>
      if k == key then (k, v) :: rest else (k, w) :: storeSet rest key v

/-- Modelled from the spec: the GCRA admission check of the external throttled
library (throttled.GCRARateLimiterCtx.RateLimitCtx), which is a dependency and
not part of this repository.  Parameters: emission interval T (duration divided
by rate) and burst B; state: the key's theoretical arrival time (TAT), absent
before first use and then treated as now.  Admit when now is at or past
TAT - B*T, setting TAT to max TAT now + T; otherwise deny and leave the TAT
unchanged. -/
def gcraCheck (T : Int) (B : Nat) (now : Int) (tat? : Option Int) : Bool × Option Int :=
  let tat := tat?.getD now
  if tat - (B : Int) * T ≤ now then (true, some (max tat now + T))
  else (false, tat?)

/-- Modelled from the spec: the GCRA check acting on the keyed store; a denied
request leaves the store unchanged. -/
def gcraCheckStore (T : Int) (B : Nat) (now : Int) (key : String) (st : Store) : Bool × Store :=
  match gcraCheck T B now (storeGet st key) with
  | (true, some tat) => (true, storeSet st key tat)
  | (true, none) => (true, st)
  | (false, _) => (false, st)

/-- Modelled from the spec: a sequence of admission checks against a single
key's state, one per listed request time, returning the admit decisions and the
final state. -/
def gcraRun (T : Int) (B : Nat) : List Int → Option Int → List Bool × Option Int
  | [], st => ([], st)
  | t :: ts, st =>
    let c := gcraCheck T B t st
    let r := gcraRun T B ts c.2
    (c.1 :: r.1, r.2)

/-- The throttled.RateLimiterCtx interface as used by SifterUnit.Sift: given the
limit key, the current time and the store, either fail or report whether the
request is limited together with the updated store. -/
abbrev RateLimiter := String → Int → Store → Except Err (Bool × Store)

/-- ratelimit.SifterUnit from sifters/ratelimit/sifter.go. -/
structure SifterUnit where
  selectLimiter : Input → Option RateLimiter
  deriveLimitKey : Input → Bool × String
  exclude : Input → Bool
  reject : RejectionFn

/-- SifterUnit.Sift from sifters/ratelimit/sifter.go.  The current time (read
inside the throttled library via the clock) and the limiter store are explicit
here. -/
def SifterUnit.sift (s : SifterUnit) (input : Input) (now : Int) (st : Store) :
    Except Err (Result × Store) :=
  if s.exclude input then Except.ok (input.Accept, st)
  else
    let d := s.deriveLimitKey input
    if !d.1 then Except.ok (input.Accept, st)
    else
      match s.selectLimiter input with
      | none => Except.ok (input.Accept, st)
      | some rateLimiter =>
          match rateLimiter d.2 now st with
          | Except.error e => Except.error e
          | Except.ok (limited, st2) =>
              if limited then Except.ok (applyRejectionFn s.reject input, st2)
              else Except.ok (input.Accept, st2)

/-- SifterUnit.Exclude from sifters/ratelimit/sifter.go. -/
def SifterUnit.Exclude (s : SifterUnit) (f : Input → Bool) : SifterUnit :=
  { s with exclude := f }

/-- UserKey constant IPAddr from sifters/ratelimit/sifter.go (iota + 1); UserKey
is a Go integer type. -/
def IPAddr : Int := 1

/-- UserKey constant PubKey from sifters/ratelimit/sifter.go. -/
def PubKey : Int := 2

/-- The GCRA limiter instance built by throttled.NewGCRARateLimiterCtx for a
quota with emission interval T and burst B; it performs the store check and
never fails in this in-memory model.  RateLimitCtx reports limited = true when
the request is denied, the negation of the admission outcome. -/
def gcraLimiter (T : Int) (B : Nat) : RateLimiter :=
  fun key now st =>
    let c := gcraCheckStore T B now key st
    Except.ok (!c.1, c.2)

/-- The deriveLimitKey closure of ratelimit.ByUser.  The address-validity test
(netip.ParseAddr succeeding, in Go) is abstracted as the isValidIPAddr
parameter. -/
def byUserDeriveLimitKey (isValidIPAddr : String → Bool) (uk : Int) (input : Input) :
    Bool × String :=
  if !(isEndUser input.sourceType) then (false, "")
  else if uk == IPAddr then
    (if isValidIPAddr input.sourceInfo then (true, input.sourceInfo) else (false, ""))
  else if uk == PubKey then (true, input.event.pubkey)
  else (false, "")

/-- ratelimit.ByUser from sifters/ratelimit/sifter.go, for a quota with emission
interval T and burst B. -/
def ByUser (isValidIPAddr : String → Bool) (T : Int) (B : Nat) (uk : Int) : SifterUnit :=
  { selectLimiter := fun _ => some (gcraLimiter T B)
    deriveLimitKey := byUserDeriveLimitKey isValidIPAddr uk
    exclude := fun _ => false
    reject := RejectionFn.rejectWithMsg "rate-limited: rate limit exceeded" }

/-- ratelimit.QuotaForKinds: a kind predicate together with the quota's GCRA
parameters (emission interval T and burst B). -/
structure QuotaForKinds where
  matchKind : Int → Bool
  T : Int
  B : Nat

/-- The deriveLimitKey closure of ratelimit.ByUserAndKind; the limit key gets
the event kind appended (fmt.Sprintf s slash d). -/
def byUserAndKindDeriveLimitKey (isValidIPAddr : String → Bool) (uk : Int) (input : Input) :
    Bool × String :=
  if !(isEndUser input.sourceType) then (false, "")
  else if uk == IPAddr then
    (if isValidIPAddr input.sourceInfo then
       (true, input.sourceInfo ++ "/" ++ toString input.event.kind)
     else (false, ""))
  else if uk == PubKey then (true, input.event.pubkey ++ "/" ++ toString input.event.kind)
  else (false, "")

/-- The selectRateLimiter closure of ratelimit.ByUserAndKind: the limiter of the
first quota entry whose kind predicate matches the event's kind, if any
(all limiter instances act on the one shared store, as in the Go code). -/
def selectRateLimiterForKind (quotas : List QuotaForKinds) (input : Input) :
    Option RateLimiter :=
  match quotas.find? (fun q => q.matchKind input.event.kind) with
  | some q => some (gcraLimiter q.T q.B)
  | none => none

/-- ratelimit.ByUserAndKind from sifters/ratelimit/sifter.go. -/
def ByUserAndKind (isValidIPAddr : String → Bool) (quotas : List QuotaForKinds) (uk : Int) :
    SifterUnit :=
  { selectLimiter := selectRateLimiterForKind quotas
    deriveLimitKey := byUserAndKindDeriveLimitKey isValidIPAddr uk
    exclude := fun _ => false
    reject := RejectionFn.rejectWithMsg "rate-limited: rate limit exceeded" }

/-- Test fixture: an event, mirroring the dummy inputs of combinators_test.go. -/
def testEvent : Event := { id := "ev1", pubkey := "pk1", kind := 1 }

/-- Test fixture: an end-user input. -/
def testInput : Input := { event := testEvent, sourceType := "IP4", sourceInfo := "203.0.113.7" }

/-- Test fixture: the acceptAll sifter of combinators_test.go. -/
def acceptAllS : Sifter := fun input => Except.ok input.Accept

/-- Test fixture: the rejectAll sifter of combinators_test.go. -/
def rejectAllS (msg : String) : Sifter := fun input => Except.ok (input.Reject msg)

/-- Test fixture: the shadowRejectAll sifter of combinators_test.go. -/
def shadowRejectAllS : Sifter := fun input => Except.ok input.ShadowRejectRes

/-- Test fixture: a sifter that fails with the given error. -/
def errorS (e : Err) : Sifter := fun _ => Except.error e

/-- C5: shouldAccept is characterized by: accept exactly when the match result
is inputAlwaysAccept, or it is inputMatch and the mode is Allow, or it is
inputMismatch and the mode is Deny.  This single equation entails every clause
of the claim: shouldAccept inputMatch mode is true iff mode = Allow;
shouldAccept inputMismatch mode is true iff mode = Deny; inputAlwaysAccept maps
to true and inputAlwaysReject to false for every mode value; and in the two
Mode-inverting cases (as well as for any unrecognized match result) an
unrecognized mode value yields false (fail-closed), never true. -/
theorem shouldAccept_characterization (matchRes mode : Int) :
    shouldAccept matchRes mode =
      ((matchRes == inputAlwaysAccept) ||
       (matchRes == inputMatch && mode == Allow) ||
       (matchRes == inputMismatch && mode == Deny)) := by
  unfold shouldAccept
  unfold inputMatch inputMismatch inputAlwaysAccept inputAlwaysReject Allow Deny
  split_ifs <;> simp_all

/-- A child that childOk declares error-free has a successful Sift outcome. -/
theorem childOk_sift (c : moddedSifter) (input : Input) (h : childOk c input = true) :
    ∃ r, c.s input = Except.ok r := by
  unfold childOk at h
  rw [Bool.and_eq_true] at h
  obtain ⟨-, h2⟩ := h
  rcases hs : c.s input with e | r
  · rw [hs] at h2; simp [exceptIsOk] at h2
  · exact ⟨r, rfl⟩

/-- A skipped child has a guard whose condition evaluates to ok false. -/
theorem isSkipped_elim (c : moddedSifter) (input : Input) (h : isSkipped c input = true) :
    ∃ g, c.onlyIfCond = some g ∧ evalCond g input = Except.ok false := by
  unfold isSkipped at h
  rcases hc : c.onlyIfCond with _ | g
  · rw [hc] at h; simp [skippedGuard] at h
  · rw [hc] at h
    rcases hge : evalCond g input with e | b
    · rw [skippedGuard, hge] at h; simp at h
    · rw [skippedGuard, hge] at h
      have hb : b = false := by simpa using h
      exact ⟨g, rfl, by rw [hge, hb]⟩

/-- A non-skipped, error-free child has a passing guard. -/
theorem guardPasses_of_not_skipped (c : moddedSifter) (input : Input)
    (hok : childOk c input = true) (hsk : isSkipped c input = false) :
    guardPasses c input := by
  unfold childOk at hok
  rw [Bool.and_eq_true] at hok
  obtain ⟨h1, -⟩ := hok
  unfold isSkipped at hsk
  rcases hc : c.onlyIfCond with _ | g
  · exact Or.inl hc
  · rw [hc] at h1 hsk
    rcases hge : evalCond g input with e | b
    · rw [guardOk, hge] at h1; simp [exceptIsOk] at h1
    · rw [skippedGuard, hge] at hsk
      have hb : b = true := by simpa using hsk
      exact Or.inr ⟨g, hc, by rw [hge, hb]⟩

/-- Pipeline loop, skip step: a guard-skipped child leaves result and
accumulator untouched. -/
theorem pipelineSiftAux_skip (input : Input) (c : moddedSifter) (rest : List moddedSifter)
    (acc : Option Result) (g : onlyIfCond) (hc : c.onlyIfCond = some g)
    (hge : evalCond g input = Except.ok false) :
    pipelineSiftAux input acc (c :: rest) = pipelineSiftAux input acc rest := by
  simp [pipelineSiftAux, hc, hge]

/-- Pipeline loop, guard-failure step: a guard error aborts with that error. -/
theorem pipelineSiftAux_guard_error (input : Input) (c : moddedSifter)
    (rest : List moddedSifter) (acc : Option Result) (g : onlyIfCond) (e : Err)
    (hc : c.onlyIfCond = some g) (hge : evalCond g input = Except.error e) :
    pipelineSiftAux input acc (c :: rest) = Except.error e := by
  simp [pipelineSiftAux, hc, hge]

/-- Pipeline loop: a child with a passing guard is evaluated. -/
theorem pipelineSiftAux_eval (input : Input) (c : moddedSifter) (rest : List moddedSifter)
    (acc : Option Result) (hg : guardPasses c input) :
    pipelineSiftAux input acc (c :: rest) =
      (match c.s input with
       | Except.error e => Except.error e
       | Except.ok r =>
           if c.acceptEarly && (r.action == Action.accept) then Except.ok (some r)
           else if !(r.action == Action.accept) then Except.ok (some r)
           else pipelineSiftAux input (some r) rest) := by
  rcases hg with hc | ⟨g, hc, hge⟩
  · simp [pipelineSiftAux, hc]
  · simp [pipelineSiftAux, hc, hge]

/-- Pipeline loop, continue step: an accepting child without accept-early moves
its result into the accumulator. -/
theorem pipelineSiftAux_continue (input : Input) (c : moddedSifter)
    (rest : List moddedSifter) (acc : Option Result) (r : Result)
    (hg : guardPasses c input) (hs : c.s input = Except.ok r)
    (hae : c.acceptEarly = false) (hr : (r.action == Action.accept) = true) :
    pipelineSiftAux input acc (c :: rest) = pipelineSiftAux input (some r) rest := by
  rw [pipelineSiftAux_eval input c rest acc hg, hs]
  simp [hae, hr]

/-- Pipeline loop, fail-fast step: a non-accepting child's decision is returned
immediately. -/
theorem pipelineSiftAux_stop (input : Input) (c : moddedSifter) (rest : List moddedSifter)
    (acc : Option Result) (r : Result) (hg : guardPasses c input)
    (hs : c.s input = Except.ok r) (hr : (r.action == Action.accept) = false) :
    pipelineSiftAux input acc (c :: rest) = Except.ok (some r) := by
  rw [pipelineSiftAux_eval input c rest acc hg, hs]
  simp [hr]

/-- Pipeline loop, accept-early step. -/
theorem pipelineSiftAux_accept_early (input : Input) (c : moddedSifter)
    (rest : List moddedSifter) (acc : Option Result) (r : Result)
    (hg : guardPasses c input) (hs : c.s input = Except.ok r)
    (hae : c.acceptEarly = true) (hr : (r.action == Action.accept) = true) :
    pipelineSiftAux input acc (c :: rest) = Except.ok (some r) := by
  rw [pipelineSiftAux_eval input c rest acc hg, hs]
  simp [hae, hr]

/-- Pipeline loop, child-failure step: an erroring child aborts with that
error. -/
theorem pipelineSiftAux_child_error (input : Input) (c : moddedSifter)
    (rest : List moddedSifter) (acc : Option Result) (e : Err)
    (hg : guardPasses c input) (hs : c.s input = Except.error e) :
    pipelineSiftAux input acc (c :: rest) = Except.error e := by
  rw [pipelineSiftAux_eval input c rest acc hg, hs]

/-- Characterization of the Accept outcome of the pipeline loop, generalizing
over the Go res accumulator: in a pipeline with no accept-early children and no
evaluation errors, the outcome is an Accept decision exactly when every child is
skipped or accepting, and additionally the accumulator already held an Accept or
some child is actually evaluated. -/
theorem pipelineSiftAux_accepts (input : Input) :
    ∀ (cs : List moddedSifter) (acc : Option Result),
      cs.all (fun c => !c.acceptEarly) = true →
      cs.all (fun c => childOk c input) = true →
      pipelineResultAccepts (pipelineSiftAux input acc cs) =
        (cs.all (fun c => isSkipped c input || childAccepts c input) &&
         (resAccepts acc || cs.any (fun c => !isSkipped c input))) := by
  intro cs
  induction cs with
  | nil =>
      intro acc _ _
      simp [pipelineSiftAux, pipelineResultAccepts]
  | cons c rest ih =>
      intro acc hae hok
      rw [List.all_cons, Bool.and_eq_true] at hae hok
      obtain ⟨haec, haer⟩ := hae
      obtain ⟨hokc, hokr⟩ := hok
      have haec' : c.acceptEarly = false := by simpa using haec
      cases hsk : isSkipped c input with
      | true =>
          obtain ⟨g, hc, hge⟩ := isSkipped_elim c input hsk
          rw [pipelineSiftAux_skip input c rest acc g hc hge, ih acc haer hokr]
          simp [List.all_cons, List.any_cons, hsk]
      | false =>
          have hg := guardPasses_of_not_skipped c input hokc hsk
          obtain ⟨r, hs⟩ := childOk_sift c input hokc
          cases hr : (r.action == Action.accept) with
          | true =>
              rw [pipelineSiftAux_continue input c rest acc r hg hs haec' hr,
                ih (some r) haer hokr]
              have hca : childAccepts c input = true := by simp [childAccepts, hs, hr]
              simp [List.all_cons, List.any_cons, hsk, hca, resAccepts, hr]
          | false =>
              rw [pipelineSiftAux_stop input c rest acc r hg hs hr]
              have hca : childAccepts c input = false := by simp [childAccepts, hs, hr]
              simp [List.all_cons, List.any_cons, hsk, hca, pipelineResultAccepts,
                resAccepts, hr]

/-- Trace of the pipeline loop, skip step: the child's Sift is not invoked. -/
theorem pipelineTraceAux_skip (input : Input) (c : moddedSifter) (rest : List moddedSifter)
    (i : Nat) (g : onlyIfCond) (hc : c.onlyIfCond = some g)
    (hge : evalCond g input = Except.ok false) :
    pipelineTraceAux input i (c :: rest) = pipelineTraceAux input (i + 1) rest := by
  simp [pipelineTraceAux, hc, hge]

/-- Trace of the pipeline loop: a child with a passing guard is invoked. -/
theorem pipelineTraceAux_eval (input : Input) (c : moddedSifter) (rest : List moddedSifter)
    (i : Nat) (hg : guardPasses c input) :
    pipelineTraceAux input i (c :: rest) =
      (match c.s input with
       | Except.error _ => [i]
       | Except.ok r =>
           if c.acceptEarly && (r.action == Action.accept) then [i]
           else if !(r.action == Action.accept) then [i]
           else i :: pipelineTraceAux input (i + 1) rest) := by
  rcases hg with hc | ⟨g, hc, hge⟩
  · simp [pipelineTraceAux, hc]
  · simp [pipelineTraceAux, hc, hge]

/-- Trace of the pipeline loop, continue step. -/
theorem pipelineTraceAux_continue (input : Input) (c : moddedSifter)
    (rest : List moddedSifter) (i : Nat) (r : Result) (hg : guardPasses c input)
    (hs : c.s input = Except.ok r) (hae : c.acceptEarly = false)
    (hr : (r.action == Action.accept) = true) :
    pipelineTraceAux input i (c :: rest) = i :: pipelineTraceAux input (i + 1) rest := by
  rw [pipelineTraceAux_eval input c rest i hg, hs]
  simp [hae, hr]

/-- Trace of the pipeline loop, fail-fast step: only this child is invoked. -/
theorem pipelineTraceAux_stop (input : Input) (c : moddedSifter) (rest : List moddedSifter)
    (i : Nat) (r : Result) (hg : guardPasses c input) (hs : c.s input = Except.ok r)
    (hr : (r.action == Action.accept) = false) :
    pipelineTraceAux input i (c :: rest) = [i] := by
  rw [pipelineTraceAux_eval input c rest i hg, hs]
  simp [hr]

/-- firstNonAcceptingAux only reports indices at or beyond the starting one. -/
theorem firstNonAcceptingAux_mono (input : Input) :
    ∀ (cs : List moddedSifter) (i j : Nat) (r : Result),
      firstNonAcceptingAux input i cs = some (j, r) → i ≤ j := by
  intro cs
  induction cs with
  | nil => intro i j r h; simp [firstNonAcceptingAux] at h
  | cons c rest ih =>
      intro i j r h
      unfold firstNonAcceptingAux at h
      cases hsk : isSkipped c input with
      | true =>
          rw [if_pos hsk] at h
          exact Nat.le_of_succ_le (ih (i + 1) j r h)
      | false =>
          rw [if_neg (by simp [hsk])] at h
          rcases hs : c.s input with e | r2 <;> rw [hs] at h
          · simp at h
          · cases hr : (r2.action == Action.accept) with
            | true =>
                simp [hr] at h
                exact Nat.le_of_succ_le (ih (i + 1) j r h)
            | false =>
                simp [hr] at h
                obtain ⟨h1, -⟩ := h
                omega

/-- If some child is the first non-skipped non-accepting one, the pipeline loop
returns exactly that child's decision, for every accumulator value. -/
theorem pipelineSiftAux_firstNonAcc (input : Input) :
    ∀ (cs : List moddedSifter) (i : Nat) (acc : Option Result) (j : Nat) (r : Result),
      cs.all (fun c => !c.acceptEarly) = true →
      cs.all (fun c => childOk c input) = true →
      firstNonAcceptingAux input i cs = some (j, r) →
      pipelineSiftAux input acc cs = Except.ok (some r) := by
  intro cs
  induction cs with
  | nil => intro i acc j r _ _ h; simp [firstNonAcceptingAux] at h
  | cons c rest ih =>
      intro i acc j r hae hok hfirst
      rw [List.all_cons, Bool.and_eq_true] at hae hok
      obtain ⟨haec, haer⟩ := hae
      obtain ⟨hokc, hokr⟩ := hok
      have haec' : c.acceptEarly = false := by simpa using haec
      unfold firstNonAcceptingAux at hfirst
      cases hsk : isSkipped c input with
      | true =>
          rw [if_pos hsk] at hfirst
          obtain ⟨g, hc, hge⟩ := isSkipped_elim c input hsk
          rw [pipelineSiftAux_skip input c rest acc g hc hge]
          exact ih (i + 1) acc j r haer hokr hfirst
      | false =>
          rw [if_neg (by simp [hsk])] at hfirst
          have hg := guardPasses_of_not_skipped c input hokc hsk
          obtain ⟨r2, hs⟩ := childOk_sift c input hokc
          rw [hs] at hfirst
          cases hr : (r2.action == Action.accept) with
          | true =>
              simp [hr] at hfirst
              rw [pipelineSiftAux_continue input c rest acc r2 hg hs haec' hr]
              exact ih (i + 1) (some r2) j r haer hokr hfirst
          | false =>
              simp [hr] at hfirst
              obtain ⟨rfl, rfl⟩ := hfirst
              exact pipelineSiftAux_stop input c rest acc r2 hg hs hr

/-- Children after the first non-skipped non-accepting one are never invoked:
every index in the trace is at most that child's index. -/
theorem pipelineTraceAux_bound (input : Input) :
    ∀ (cs : List moddedSifter) (i j : Nat) (r : Result),
      cs.all (fun c => !c.acceptEarly) = true →
      cs.all (fun c => childOk c input) = true →
      firstNonAcceptingAux input i cs = some (j, r) →
      ∀ k ∈ pipelineTraceAux input i cs, k ≤ j := by
  intro cs
  induction cs with
  | nil => intro i j r _ _ h; simp [firstNonAcceptingAux] at h
  | cons c rest ih =>
      intro i j r hae hok hfirst
      rw [List.all_cons, Bool.and_eq_true] at hae hok
      obtain ⟨haec, haer⟩ := hae
      obtain ⟨hokc, hokr⟩ := hok
      have haec' : c.acceptEarly = false := by simpa using haec
      unfold firstNonAcceptingAux at hfirst
      cases hsk : isSkipped c input with
      | true =>
          rw [if_pos hsk] at hfirst
          obtain ⟨g, hc, hge⟩ := isSkipped_elim c input hsk
          rw [pipelineTraceAux_skip input c rest i g hc hge]
          exact ih (i + 1) j r haer hokr hfirst
      | false =>
          rw [if_neg (by simp [hsk])] at hfirst
          have hg := guardPasses_of_not_skipped c input hokc hsk
          obtain ⟨r2, hs⟩ := childOk_sift c input hokc
          rw [hs] at hfirst
          cases hr : (r2.action == Action.accept) with
          | true =>
              simp [hr] at hfirst
              rw [pipelineTraceAux_continue input c rest i r2 hg hs haec' hr]
              intro k hk
              rcases List.mem_cons.mp hk with hk | hk
              · rw [hk]
                exact Nat.le_of_succ_le (firstNonAcceptingAux_mono input rest (i + 1) j r hfirst)
              · exact ih (i + 1) j r haer hokr hfirst k hk
          | false =>
              simp [hr] at hfirst
              obtain ⟨rfl, rfl⟩ := hfirst
              rw [pipelineTraceAux_stop input c rest _ r2 hg hs hr]
              intro k hk
              rcases List.mem_singleton.mp hk with rfl
              exact Nat.le_refl _

/-- C1: evaluating pipelineSifter.Sift at the failing inputs.  A Pipeline with
zero children, and a Pipeline whose every child is skipped by its guard, return
ok with NO result (the Go code returns res = nil and err = nil), not an Accept
decision; the trace confirms no child was evaluated.  This contradicts the
spec's defined default (Accept) and the Sifter interface contract, which says
Sift returns either a Result or an error. -/
theorem pipeline_all_skipped_no_decision :
    pipelineSift [] testInput = Except.ok none ∧
    pipelineSift [(WithMod acceptAllS).OnlyIf (rejectAllS "cond")] testInput = Except.ok none ∧
    pipelineTrace [(WithMod acceptAllS).OnlyIf (rejectAllS "cond")] testInput = [] :=
  ⟨rfl, rfl, rfl⟩

/-- C2 counterexample: the claim fails as stated, at two concrete Pipelines.
First, with children [WithMod(acceptAll).AcceptEarly(), rejectAll "m"] the
result is the accept-early child's Accept decision, although the second child is
non-skipped and does not accept, and the first non-accepting non-skipped child's
decision (index 1, Reject "m") is not returned; second, with the single
guard-skipped child [WithMod(rejectAll "x").OnlyIf(rejectAll "c")] every
non-skipped child accepts vacuously yet the result is no decision at all, not an
Accept. -/
theorem pipeline_and_fail_fast_cex :
    (pipelineResultAccepts
        (pipelineSift [(WithMod acceptAllS).AcceptEarly, WithMod (rejectAllS "m")] testInput)
      = true) ∧
    (isSkipped (WithMod (rejectAllS "m")) testInput = false) ∧
    (childAccepts (WithMod (rejectAllS "m")) testInput = false) ∧
    (firstNonAccepting [(WithMod acceptAllS).AcceptEarly, WithMod (rejectAllS "m")] testInput
      = some (1, testInput.Reject "m")) ∧
    (pipelineSift [(WithMod acceptAllS).AcceptEarly, WithMod (rejectAllS "m")] testInput
      = Except.ok (some testInput.Accept)) ∧
    (List.all [(WithMod (rejectAllS "x")).OnlyIf (rejectAllS "c")]
        (fun c => isSkipped c testInput || childAccepts c testInput) = true) ∧
    (pipelineResultAccepts
        (pipelineSift [(WithMod (rejectAllS "x")).OnlyIf (rejectAllS "c")] testInput) = false) :=
  ⟨rfl, rfl, rfl, rfl, rfl, rfl, rfl⟩


/-- C2 (amended): for every Pipeline whose children carry no accept-early flag,
where at least one child is non-skipped and no child or guard evaluation errors
(the claim presupposes that a decision is produced): the Pipeline's result
accepts iff every non-skipped child accepts; and if some child is the first
non-accepting (Reject or ShadowReject) non-skipped child, the Pipeline returns
that child's decision exactly (same action and message), without evaluating any
later child (no index beyond it appears in the evaluation trace). -/
theorem pipeline_and_fail_fast (cs : List moddedSifter) (input : Input)
    (hae : cs.all (fun c => !c.acceptEarly) = true)
    (hok : cs.all (fun c => childOk c input) = true)
    (hne : cs.any (fun c => !isSkipped c input) = true) :
    (pipelineResultAccepts (pipelineSift cs input) =
       cs.all (fun c => isSkipped c input || childAccepts c input)) ∧
    (∀ j r, firstNonAccepting cs input = some (j, r) →
       pipelineSift cs input = Except.ok (some r) ∧
       ∀ k ∈ pipelineTrace cs input, k ≤ j) := by
  constructor
  · rw [pipelineSift, pipelineSiftAux_accepts input cs none hae hok]
    simp [resAccepts, hne]
  · intro j r hfirst
    exact ⟨pipelineSiftAux_firstNonAcc input cs 0 none j r hae hok hfirst,
           pipelineTraceAux_bound input cs 0 j r hae hok hfirst⟩

/-- Witness for the amended C2 theorem at a concrete pipeline: children
[acceptAll, rejectAll "no", acceptAll] on the test input. -/
theorem pipeline_and_fail_fast_witness :
    (List.all [WithMod acceptAllS, WithMod (rejectAllS "no"), WithMod acceptAllS]
       (fun c => !c.acceptEarly) = true) ∧
    (List.all [WithMod acceptAllS, WithMod (rejectAllS "no"), WithMod acceptAllS]
       (fun c => childOk c testInput) = true) ∧
    (List.any [WithMod acceptAllS, WithMod (rejectAllS "no"), WithMod acceptAllS]
       (fun c => !isSkipped c testInput) = true) ∧
    ((pipelineResultAccepts
        (pipelineSift [WithMod acceptAllS, WithMod (rejectAllS "no"), WithMod acceptAllS]
          testInput) =
      List.all [WithMod acceptAllS, WithMod (rejectAllS "no"), WithMod acceptAllS]
        (fun c => isSkipped c testInput || childAccepts c testInput)) ∧
     (∀ j r,
        firstNonAccepting [WithMod acceptAllS, WithMod (rejectAllS "no"), WithMod acceptAllS]
          testInput = some (j, r) →
        pipelineSift [WithMod acceptAllS, WithMod (rejectAllS "no"), WithMod acceptAllS]
          testInput = Except.ok (some r) ∧
        ∀ k ∈ pipelineTrace [WithMod acceptAllS, WithMod (rejectAllS "no"), WithMod acceptAllS]
          testInput, k ≤ j)) :=
  ⟨rfl, rfl, rfl,
   pipeline_and_fail_fast [WithMod acceptAllS, WithMod (rejectAllS "no"), WithMod acceptAllS]
     testInput rfl rfl rfl⟩


/-- Every rejection function produces a non-Accept action (ShadowReject or
Reject), on every input. -/
theorem applyRejectionFn_ne_accept (rej : RejectionFn) (input : Input) :
    ((applyRejectionFn rej input).action == Action.accept) = false := by
  cases rej <;> rfl

/-- OneOf loop, skip step. -/
theorem oneOfSiftAux_skip (input : Input) (rej : RejectionFn) (c : moddedSifter)
    (rest : List moddedSifter) (g : onlyIfCond) (hc : c.onlyIfCond = some g)
    (hge : evalCond g input = Except.ok false) :
    oneOfSiftAux input rej (c :: rest) = oneOfSiftAux input rej rest := by
  simp [oneOfSiftAux, hc, hge]

/-- OneOf loop, guard-failure step. -/
theorem oneOfSiftAux_guard_error (input : Input) (rej : RejectionFn) (c : moddedSifter)
    (rest : List moddedSifter) (g : onlyIfCond) (e : Err) (hc : c.onlyIfCond = some g)
    (hge : evalCond g input = Except.error e) :
    oneOfSiftAux input rej (c :: rest) = Except.error e := by
  simp [oneOfSiftAux, hc, hge]

/-- OneOf loop: a child with a passing guard is evaluated. -/
theorem oneOfSiftAux_eval (input : Input) (rej : RejectionFn) (c : moddedSifter)
    (rest : List moddedSifter) (hg : guardPasses c input) :
    oneOfSiftAux input rej (c :: rest) =
      (match c.s input with
       | Except.error e => Except.error e
       | Except.ok r =>
           if r.action == Action.accept then Except.ok r
           else oneOfSiftAux input rej rest) := by
  rcases hg with hc | ⟨g, hc, hge⟩
  · simp [oneOfSiftAux, hc]
  · simp [oneOfSiftAux, hc, hge]

/-- OneOf loop, first-accept step. -/
theorem oneOfSiftAux_accept (input : Input) (rej : RejectionFn) (c : moddedSifter)
    (rest : List moddedSifter) (r : Result) (hg : guardPasses c input)
    (hs : c.s input = Except.ok r) (hr : (r.action == Action.accept) = true) :
    oneOfSiftAux input rej (c :: rest) = Except.ok r := by
  rw [oneOfSiftAux_eval input rej c rest hg, hs]
  simp [hr]

/-- OneOf loop, continue step: a non-accepting child's result is discarded. -/
theorem oneOfSiftAux_continue (input : Input) (rej : RejectionFn) (c : moddedSifter)
    (rest : List moddedSifter) (r : Result) (hg : guardPasses c input)
    (hs : c.s input = Except.ok r) (hr : (r.action == Action.accept) = false) :
    oneOfSiftAux input rej (c :: rest) = oneOfSiftAux input rej rest := by
  rw [oneOfSiftAux_eval input rej c rest hg, hs]
  simp [hr]

/-- OneOf loop, child-failure step. -/
theorem oneOfSiftAux_child_error (input : Input) (rej : RejectionFn) (c : moddedSifter)
    (rest : List moddedSifter) (e : Err) (hg : guardPasses c input)
    (hs : c.s input = Except.error e) :
    oneOfSiftAux input rej (c :: rest) = Except.error e := by
  rw [oneOfSiftAux_eval input rej c rest hg, hs]

/-- Trace of the OneOf loop, skip step. -/
theorem oneOfTraceAux_skip (input : Input) (c : moddedSifter) (rest : List moddedSifter)
    (i : Nat) (g : onlyIfCond) (hc : c.onlyIfCond = some g)
    (hge : evalCond g input = Except.ok false) :
    oneOfTraceAux input i (c :: rest) = oneOfTraceAux input (i + 1) rest := by
  simp [oneOfTraceAux, hc, hge]

/-- Trace of the OneOf loop: a child with a passing guard is invoked. -/
theorem oneOfTraceAux_eval (input : Input) (c : moddedSifter) (rest : List moddedSifter)
    (i : Nat) (hg : guardPasses c input) :
    oneOfTraceAux input i (c :: rest) =
      (match c.s input with
       | Except.error _ => [i]
       | Except.ok r =>
           if r.action == Action.accept then [i]
           else i :: oneOfTraceAux input (i + 1) rest) := by
  rcases hg with hc | ⟨g, hc, hge⟩
  · simp [oneOfTraceAux, hc]
  · simp [oneOfTraceAux, hc, hge]

/-- If some child is the first non-skipped accepting one, the OneOf loop
returns exactly that child's Accept decision. -/
theorem oneOfSiftAux_firstAcc_some (input : Input) (rej : RejectionFn) :
    ∀ (cs : List moddedSifter) (i j : Nat) (r : Result),
      cs.all (fun c => childOk c input) = true →
      firstAcceptingAux input i cs = some (j, r) →
      oneOfSiftAux input rej cs = Except.ok r ∧ (r.action == Action.accept) = true := by
  intro cs
  induction cs with
  | nil => intro i j r _ h; simp [firstAcceptingAux] at h
  | cons c rest ih =>
      intro i j r hok hfirst
      rw [List.all_cons, Bool.and_eq_true] at hok
      obtain ⟨hokc, hokr⟩ := hok
      unfold firstAcceptingAux at hfirst
      cases hsk : isSkipped c input with
      | true =>
          rw [if_pos hsk] at hfirst
          obtain ⟨g, hc, hge⟩ := isSkipped_elim c input hsk
          rw [oneOfSiftAux_skip input rej c rest g hc hge]
          exact ih (i + 1) j r hokr hfirst
      | false =>
          rw [if_neg (by simp [hsk])] at hfirst
          have hg := guardPasses_of_not_skipped c input hokc hsk
          obtain ⟨r2, hs⟩ := childOk_sift c input hokc
          rw [hs] at hfirst
          cases hr : (r2.action == Action.accept) with
          | true =>
              simp [hr] at hfirst
              obtain ⟨rfl, rfl⟩ := hfirst
              exact ⟨oneOfSiftAux_accept input rej c rest r2 hg hs hr, hr⟩
          | false =>
              simp [hr] at hfirst
              rw [oneOfSiftAux_continue input rej c rest r2 hg hs hr]
              exact ih (i + 1) j r hokr hfirst

/-- If every child is skipped or non-accepting, the OneOf loop falls through to
the configured rejection function applied to the input. -/
theorem oneOfSiftAux_firstAcc_none (input : Input) (rej : RejectionFn) :
    ∀ (cs : List moddedSifter) (i : Nat),
      cs.all (fun c => childOk c input) = true →
      firstAcceptingAux input i cs = none →
      oneOfSiftAux input rej cs = Except.ok (applyRejectionFn rej input) := by
  intro cs
  induction cs with
  | nil => intro i _ _; simp [oneOfSiftAux]
  | cons c rest ih =>
      intro i hok hfirst
      rw [List.all_cons, Bool.and_eq_true] at hok
      obtain ⟨hokc, hokr⟩ := hok
      unfold firstAcceptingAux at hfirst
      cases hsk : isSkipped c input with
      | true =>
          rw [if_pos hsk] at hfirst
          obtain ⟨g, hc, hge⟩ := isSkipped_elim c input hsk
          rw [oneOfSiftAux_skip input rej c rest g hc hge]
          exact ih (i + 1) hokr hfirst
      | false =>
          rw [if_neg (by simp [hsk])] at hfirst
          have hg := guardPasses_of_not_skipped c input hokc hsk
          obtain ⟨r2, hs⟩ := childOk_sift c input hokc
          rw [hs] at hfirst
          cases hr : (r2.action == Action.accept) with
          | true => simp [hr] at hfirst
          | false =>
              simp [hr] at hfirst
              rw [oneOfSiftAux_continue input rej c rest r2 hg hs hr]
              exact ih (i + 1) hokr hfirst

/-- The OneOf loop produces an Accept decision exactly when some non-skipped
child accepts. -/
theorem oneOfSiftAux_accepts (input : Input) (rej : RejectionFn) :
    ∀ (cs : List moddedSifter),
      cs.all (fun c => childOk c input) = true →
      oneOfResultAccepts (oneOfSiftAux input rej cs) =
        cs.any (fun c => !isSkipped c input && childAccepts c input) := by
  intro cs
  induction cs with
  | nil =>
      intro _
      simp [oneOfSiftAux, oneOfResultAccepts, applyRejectionFn_ne_accept]
  | cons c rest ih =>
      intro hok
      rw [List.all_cons, Bool.and_eq_true] at hok
      obtain ⟨hokc, hokr⟩ := hok
      cases hsk : isSkipped c input with
      | true =>
          obtain ⟨g, hc, hge⟩ := isSkipped_elim c input hsk
          rw [oneOfSiftAux_skip input rej c rest g hc hge, ih hokr]
          simp [List.any_cons, hsk]
      | false =>
          have hg := guardPasses_of_not_skipped c input hokc hsk
          obtain ⟨r2, hs⟩ := childOk_sift c input hokc
          cases hr : (r2.action == Action.accept) with
          | true =>
              rw [oneOfSiftAux_accept input rej c rest r2 hg hs hr]
              have hca : childAccepts c input = true := by simp [childAccepts, hs, hr]
              simp [List.any_cons, hsk, hca, oneOfResultAccepts, hr]
          | false =>
              rw [oneOfSiftAux_continue input rej c rest r2 hg hs hr, ih hokr]
              have hca : childAccepts c input = false := by simp [childAccepts, hs, hr]
              simp [List.any_cons, hsk, hca]

/-- C3: for every OneOf (any children, any configured rejection function) and
every input on which no child or guard evaluation errors: the result accepts iff
some non-skipped child accepts; if some child is the first non-skipped accepting
one, the result equals that child's Accept decision exactly; and if every child
was skipped or did not accept (including a OneOf with zero children), the result
equals the configured rejection function applied to the input. -/
theorem oneOf_or_semantics (cs : List moddedSifter) (rej : RejectionFn) (input : Input)
    (hok : cs.all (fun c => childOk c input) = true) :
    (oneOfResultAccepts (oneOfSift cs rej input) =
       cs.any (fun c => !isSkipped c input && childAccepts c input)) ∧
    (∀ j r, firstAccepting cs input = some (j, r) →
       oneOfSift cs rej input = Except.ok r ∧ (r.action == Action.accept) = true) ∧
    (firstAccepting cs input = none →
       oneOfSift cs rej input = Except.ok (applyRejectionFn rej input)) := by
  refine ⟨oneOfSiftAux_accepts input rej cs hok, ?_, ?_⟩
  · intro j r hfirst
    exact oneOfSiftAux_firstAcc_some input rej cs 0 j r hok hfirst
  · intro hfirst
    exact oneOfSiftAux_firstAcc_none input rej cs 0 hok hfirst

/-- Witness for the C3 theorem at a concrete OneOf: children
[rejectAll "r1", acceptAll, rejectAll "r2"] with the default rejection message,
on the test input. -/
theorem oneOf_or_semantics_witness :
    (List.all [WithMod (rejectAllS "r1"), WithMod acceptAllS, WithMod (rejectAllS "r2")]
       (fun c => childOk c testInput) = true) ∧
    ((oneOfResultAccepts
        (oneOfSift [WithMod (rejectAllS "r1"), WithMod acceptAllS, WithMod (rejectAllS "r2")]
          (RejectionFn.rejectWithMsg "blocked: any of sub-sifters didn't accept the event")
          testInput) =
      List.any [WithMod (rejectAllS "r1"), WithMod acceptAllS, WithMod (rejectAllS "r2")]
        (fun c => !isSkipped c testInput && childAccepts c testInput)) ∧
     (∀ j r,
        firstAccepting [WithMod (rejectAllS "r1"), WithMod acceptAllS, WithMod (rejectAllS "r2")]
          testInput = some (j, r) →
        oneOfSift [WithMod (rejectAllS "r1"), WithMod acceptAllS, WithMod (rejectAllS "r2")]
          (RejectionFn.rejectWithMsg "blocked: any of sub-sifters didn't accept the event")
          testInput = Except.ok r ∧ (r.action == Action.accept) = true) ∧
     (firstAccepting [WithMod (rejectAllS "r1"), WithMod acceptAllS, WithMod (rejectAllS "r2")]
          testInput = none →
        oneOfSift [WithMod (rejectAllS "r1"), WithMod acceptAllS, WithMod (rejectAllS "r2")]
          (RejectionFn.rejectWithMsg "blocked: any of sub-sifters didn't accept the event")
          testInput =
          Except.ok
            (applyRejectionFn
              (RejectionFn.rejectWithMsg "blocked: any of sub-sifters didn't accept the event")
              testInput))) :=
  ⟨rfl,
   oneOf_or_semantics [WithMod (rejectAllS "r1"), WithMod acceptAllS, WithMod (rejectAllS "r2")]
     (RejectionFn.rejectWithMsg "blocked: any of sub-sifters didn't accept the event")
     testInput rfl⟩


/-- C9: guard polarity.  For any condition sifter whose evaluation on the input
succeeds with result r: OnlyIf(cond) guards evaluate to ok (r accepts) and
OnlyIfNot(cond) guards to ok (not (r accepts)) - exact complements for the same
condition outcome; consequently a child wrapped with OnlyIf(cond) is evaluated
by a Pipeline and by a OneOf (its index appears in the trace) iff cond's result
action is Accept, and a child wrapped with OnlyIfNot(cond) iff it is not. -/
theorem onlyIf_guard_polarity (cond : Sifter) (input : Input) (r : Result)
    (hc : cond input = Except.ok r) :
    (evalCond { cond := cond, ifAccepted := true } input =
       Except.ok (r.action == Action.accept)) ∧
    (evalCond { cond := cond, ifAccepted := false } input =
       Except.ok (!(r.action == Action.accept))) ∧
    (∀ m : moddedSifter, m.onlyIfCond = some { cond := cond, ifAccepted := true } →
       pipelineTrace [m] input = (if (r.action == Action.accept) = true then [0] else []) ∧
       oneOfTrace [m] input = (if (r.action == Action.accept) = true then [0] else [])) ∧
    (∀ m : moddedSifter, m.onlyIfCond = some { cond := cond, ifAccepted := false } →
       pipelineTrace [m] input = (if (r.action == Action.accept) = true then [] else [0]) ∧
       oneOfTrace [m] input = (if (r.action == Action.accept) = true then [] else [0])) := by
  have ha : evalCond { cond := cond, ifAccepted := true } input =
      Except.ok (r.action == Action.accept) := by
    cases hr : (r.action == Action.accept) with
    | true => simp [evalCond, hc, hr]
    | false => simp [evalCond, hc, hr]
  have hb : evalCond { cond := cond, ifAccepted := false } input =
      Except.ok (!(r.action == Action.accept)) := by
    cases hr : (r.action == Action.accept) with
    | true => simp [evalCond, hc, hr]
    | false => simp [evalCond, hc, hr]
  refine ⟨ha, hb, ?_, ?_⟩
  · intro m hm
    cases hr : (r.action == Action.accept) with
    | true =>
        rw [hr] at ha
        constructor
        · rw [pipelineTrace]
          rcases hms : m.s input with e | r2
          · simp [pipelineTraceAux, hm, ha, hms]
          · simp only [pipelineTraceAux, hm, ha, hms, if_pos rfl]
            split_ifs <;> simp [pipelineTraceAux]
        · rw [oneOfTrace]
          rcases hms : m.s input with e | r2
          · simp [oneOfTraceAux, hm, ha, hms]
          · simp only [oneOfTraceAux, hm, ha, hms, if_pos rfl]
            split_ifs <;> simp [oneOfTraceAux]
    | false =>
        rw [hr] at ha
        constructor
        · simp [pipelineTrace, pipelineTraceAux, hm, ha]
        · simp [oneOfTrace, oneOfTraceAux, hm, ha]
  · intro m hm
    cases hr : (r.action == Action.accept) with
    | false =>
        rw [hr] at hb
        simp only [Bool.not_false] at hb
        constructor
        · rw [pipelineTrace]
          rcases hms : m.s input with e | r2
          · simp [pipelineTraceAux, hm, hb, hms]
          · simp only [pipelineTraceAux, hm, hb, hms, if_pos rfl]
            split_ifs <;> simp_all [pipelineTraceAux]
        · rw [oneOfTrace]
          rcases hms : m.s input with e | r2
          · simp [oneOfTraceAux, hm, hb, hms]
          · simp only [oneOfTraceAux, hm, hb, hms, if_pos rfl]
            split_ifs <;> simp_all [oneOfTraceAux]
    | true =>
        rw [hr] at hb
        simp only [Bool.not_true] at hb
        constructor
        · simp [pipelineTrace, pipelineTraceAux, hm, hb]
        · simp [oneOfTrace, oneOfTraceAux, hm, hb]

/-- Witness for the C9 theorem at the concrete condition acceptAll on the test
input (condition outcome: Accept). -/
theorem onlyIf_guard_polarity_witness :
    (acceptAllS testInput = Except.ok (Input.Accept testInput)) ∧
    ((evalCond { cond := acceptAllS, ifAccepted := true } testInput =
        Except.ok ((Input.Accept testInput).action == Action.accept)) ∧
     (evalCond { cond := acceptAllS, ifAccepted := false } testInput =
        Except.ok (!((Input.Accept testInput).action == Action.accept))) ∧
     (∀ m : moddedSifter, m.onlyIfCond = some { cond := acceptAllS, ifAccepted := true } →
        pipelineTrace [m] testInput =
          (if ((Input.Accept testInput).action == Action.accept) = true then [0] else []) ∧
        oneOfTrace [m] testInput =
          (if ((Input.Accept testInput).action == Action.accept) = true then [0] else [])) ∧
     (∀ m : moddedSifter, m.onlyIfCond = some { cond := acceptAllS, ifAccepted := false } →
        pipelineTrace [m] testInput =
          (if ((Input.Accept testInput).action == Action.accept) = true then [] else [0]) ∧
        oneOfTrace [m] testInput =
          (if ((Input.Accept testInput).action == Action.accept) = true then [] else [0]))) :=
  ⟨rfl, onlyIf_guard_polarity acceptAllS testInput (Input.Accept testInput) rfl⟩


/-- Trace of the pipeline loop, guard-failure step: nothing is invoked. -/
theorem pipelineTraceAux_guard_error (input : Input) (c : moddedSifter)
    (rest : List moddedSifter) (i : Nat) (g : onlyIfCond) (e : Err)
    (hc : c.onlyIfCond = some g) (hge : evalCond g input = Except.error e) :
    pipelineTraceAux input i (c :: rest) = [] := by
  simp [pipelineTraceAux, hc, hge]

/-- Trace of the OneOf loop, guard-failure step. -/
theorem oneOfTraceAux_guard_error (input : Input) (c : moddedSifter)
    (rest : List moddedSifter) (i : Nat) (g : onlyIfCond) (e : Err)
    (hc : c.onlyIfCond = some g) (hge : evalCond g input = Except.error e) :
    oneOfTraceAux input i (c :: rest) = [] := by
  simp [oneOfTraceAux, hc, hge]

/-- Once the pipeline loop aborts with an error, appending further children
does not change the outcome. -/
theorem pipelineSiftAux_append_error (input : Input) :
    ∀ (cs ds : List moddedSifter) (acc : Option Result) (e : Err),
      pipelineSiftAux input acc cs = Except.error e →
      pipelineSiftAux input acc (cs ++ ds) = Except.error e := by
  intro cs
  induction cs with
  | nil => intro ds acc e h; simp [pipelineSiftAux] at h
  | cons c rest ih =>
      intro ds acc e h
      rw [List.cons_append]
      rcases hcond : c.onlyIfCond with _ | g
      · have hg : guardPasses c input := Or.inl hcond
        rw [pipelineSiftAux_eval input c rest acc hg] at h
        rw [pipelineSiftAux_eval input c (rest ++ ds) acc hg]
        rcases hs : c.s input with e2 | r
        · rw [hs] at h; simp only [] at h ⊢; exact h
        · rw [hs] at h; simp only [] at h ⊢
          split_ifs at h ⊢
          exact ih ds (some r) e h
      · rcases hge : evalCond g input with e2 | b
        · rw [pipelineSiftAux_guard_error input c rest acc g e2 hcond hge] at h
          rw [pipelineSiftAux_guard_error input c (rest ++ ds) acc g e2 hcond hge]
          exact h
        · cases b with
          | false =>
              rw [pipelineSiftAux_skip input c rest acc g hcond hge] at h
              rw [pipelineSiftAux_skip input c (rest ++ ds) acc g hcond hge]
              exact ih ds acc e h
          | true =>
              have hg : guardPasses c input := Or.inr ⟨g, hcond, hge⟩
              rw [pipelineSiftAux_eval input c rest acc hg] at h
              rw [pipelineSiftAux_eval input c (rest ++ ds) acc hg]
              rcases hs : c.s input with e2 | r
              · rw [hs] at h; simp only [] at h ⊢; exact h
              · rw [hs] at h; simp only [] at h ⊢
                split_ifs at h ⊢
                exact ih ds (some r) e h

/-- Once the pipeline loop aborts with an error, the appended children are not
invoked: the trace is unchanged. -/
theorem pipelineTraceAux_append_error (input : Input) :
    ∀ (cs ds : List moddedSifter) (i : Nat) (acc : Option Result) (e : Err),
      pipelineSiftAux input acc cs = Except.error e →
      pipelineTraceAux input i (cs ++ ds) = pipelineTraceAux input i cs := by
  intro cs
  induction cs with
  | nil => intro ds i acc e h; simp [pipelineSiftAux] at h
  | cons c rest ih =>
      intro ds i acc e h
      rw [List.cons_append]
      rcases hcond : c.onlyIfCond with _ | g
      · have hg : guardPasses c input := Or.inl hcond
        rw [pipelineSiftAux_eval input c rest acc hg] at h
        rw [pipelineTraceAux_eval input c (rest ++ ds) i hg,
          pipelineTraceAux_eval input c rest i hg]
        rcases hs : c.s input with e2 | r
        · rfl
        · rw [hs] at h; simp only [] at h ⊢
          split_ifs at h ⊢
          rw [ih ds (i + 1) (some r) e h]
      · rcases hge : evalCond g input with e2 | b
        · rw [pipelineTraceAux_guard_error input c (rest ++ ds) i g e2 hcond hge,
            pipelineTraceAux_guard_error input c rest i g e2 hcond hge]
        · cases b with
          | false =>
              rw [pipelineSiftAux_skip input c rest acc g hcond hge] at h
              rw [pipelineTraceAux_skip input c (rest ++ ds) i g hcond hge,
                pipelineTraceAux_skip input c rest i g hcond hge]
              exact ih ds (i + 1) acc e h
          | true =>
              have hg : guardPasses c input := Or.inr ⟨g, hcond, hge⟩
              rw [pipelineSiftAux_eval input c rest acc hg] at h
              rw [pipelineTraceAux_eval input c (rest ++ ds) i hg,
                pipelineTraceAux_eval input c rest i hg]
              rcases hs : c.s input with e2 | r
              · rfl
              · rw [hs] at h; simp only [] at h ⊢
                split_ifs at h ⊢
                rw [ih ds (i + 1) (some r) e h]

/-- Once the OneOf loop aborts with an error, appending further children does
not change the outcome. -/
theorem oneOfSiftAux_append_error (input : Input) (rej : RejectionFn) :
    ∀ (cs ds : List moddedSifter) (e : Err),
      oneOfSiftAux input rej cs = Except.error e →
      oneOfSiftAux input rej (cs ++ ds) = Except.error e := by
  intro cs
  induction cs with
  | nil => intro ds e h; simp [oneOfSiftAux] at h
  | cons c rest ih =>
      intro ds e h
      rw [List.cons_append]
      rcases hcond : c.onlyIfCond with _ | g
      · have hg : guardPasses c input := Or.inl hcond
        rw [oneOfSiftAux_eval input rej c rest hg] at h
        rw [oneOfSiftAux_eval input rej c (rest ++ ds) hg]
        rcases hs : c.s input with e2 | r
        · rw [hs] at h; simp only [] at h ⊢; exact h
        · rw [hs] at h; simp only [] at h ⊢
          split_ifs at h ⊢
          exact ih ds e h
      · rcases hge : evalCond g input with e2 | b
        · rw [oneOfSiftAux_guard_error input rej c rest g e2 hcond hge] at h
          rw [oneOfSiftAux_guard_error input rej c (rest ++ ds) g e2 hcond hge]
          exact h
        · cases b with
          | false =>
              rw [oneOfSiftAux_skip input rej c rest g hcond hge] at h
              rw [oneOfSiftAux_skip input rej c (rest ++ ds) g hcond hge]
              exact ih ds e h
          | true =>
              have hg : guardPasses c input := Or.inr ⟨g, hcond, hge⟩
              rw [oneOfSiftAux_eval input rej c rest hg] at h
              rw [oneOfSiftAux_eval input rej c (rest ++ ds) hg]
              rcases hs : c.s input with e2 | r
              · rw [hs] at h; simp only [] at h ⊢; exact h
              · rw [hs] at h; simp only [] at h ⊢
                split_ifs at h ⊢
                exact ih ds e h

/-- Once the OneOf loop aborts with an error, the appended children are not
invoked. -/
theorem oneOfTraceAux_append_error (input : Input) (rej : RejectionFn) :
    ∀ (cs ds : List moddedSifter) (i : Nat) (e : Err),
      oneOfSiftAux input rej cs = Except.error e →
      oneOfTraceAux input i (cs ++ ds) = oneOfTraceAux input i cs := by
  intro cs
  induction cs with
  | nil => intro ds i e h; simp [oneOfSiftAux] at h
  | cons c rest ih =>
      intro ds i e h
      rw [List.cons_append]
      rcases hcond : c.onlyIfCond with _ | g
      · have hg : guardPasses c input := Or.inl hcond
        rw [oneOfSiftAux_eval input rej c rest hg] at h
        rw [oneOfTraceAux_eval input c (rest ++ ds) i hg, oneOfTraceAux_eval input c rest i hg]
        rcases hs : c.s input with e2 | r
        · rfl
        · rw [hs] at h; simp only [] at h ⊢
          split_ifs at h ⊢
          rw [ih ds (i + 1) e h]
      · rcases hge : evalCond g input with e2 | b
        · rw [oneOfTraceAux_guard_error input c (rest ++ ds) i g e2 hcond hge,
            oneOfTraceAux_guard_error input c rest i g e2 hcond hge]
        · cases b with
          | false =>
              rw [oneOfSiftAux_skip input rej c rest g hcond hge] at h
              rw [oneOfTraceAux_skip input c (rest ++ ds) i g hcond hge,
                oneOfTraceAux_skip input c rest i g hcond hge]
              exact ih ds (i + 1) e h
          | true =>
              have hg : guardPasses c input := Or.inr ⟨g, hcond, hge⟩
              rw [oneOfSiftAux_eval input rej c rest hg] at h
              rw [oneOfTraceAux_eval input c (rest ++ ds) i hg,
                oneOfTraceAux_eval input c rest i hg]
              rcases hs : c.s input with e2 | r
              · rfl
              · rw [hs] at h; simp only [] at h ⊢
                split_ifs at h ⊢
                rw [ih ds (i + 1) e h]

/-- C6: error propagation.  A guard error or a child error makes Pipeline and
OneOf return exactly that error, not a Decision, and the trace shows no further
child is evaluated; once a prefix of the children errors, any appended siblings
change neither the outcome nor the trace; and a rate-limit sifter whose limiter
state check fails on the reached path returns exactly that error, not a
Decision. -/
theorem sift_error_propagation (input : Input) (e : Err) :
    (∀ (c : moddedSifter) (g : onlyIfCond) (cs : List moddedSifter) (rej : RejectionFn),
       c.onlyIfCond = some g → evalCond g input = Except.error e →
       pipelineSift (c :: cs) input = Except.error e ∧ pipelineTrace (c :: cs) input = [] ∧
       oneOfSift (c :: cs) rej input = Except.error e ∧ oneOfTrace (c :: cs) input = []) ∧
    (∀ (c : moddedSifter) (cs : List moddedSifter) (rej : RejectionFn),
       guardPasses c input → c.s input = Except.error e →
       pipelineSift (c :: cs) input = Except.error e ∧ pipelineTrace (c :: cs) input = [0] ∧
       oneOfSift (c :: cs) rej input = Except.error e ∧ oneOfTrace (c :: cs) input = [0]) ∧
    (∀ (cs ds : List moddedSifter),
       pipelineSift cs input = Except.error e →
       pipelineSift (cs ++ ds) input = Except.error e ∧
       pipelineTrace (cs ++ ds) input = pipelineTrace cs input) ∧
    (∀ (cs ds : List moddedSifter) (rej : RejectionFn),
       oneOfSift cs rej input = Except.error e →
       oneOfSift (cs ++ ds) rej input = Except.error e ∧
       oneOfTrace (cs ++ ds) input = oneOfTrace cs input) ∧
    (∀ (u : SifterUnit) (now : Int) (st : Store) (k : String) (L : RateLimiter),
       u.exclude input = false → u.deriveLimitKey input = (true, k) →
       u.selectLimiter input = some L → L k now st = Except.error e →
       u.sift input now st = Except.error e) := by
  refine ⟨?_, ?_, ?_, ?_, ?_⟩
  · intro c g cs rej hc hge
    exact ⟨pipelineSiftAux_guard_error input c cs none g e hc hge,
      pipelineTraceAux_guard_error input c cs 0 g e hc hge,
      oneOfSiftAux_guard_error input rej c cs g e hc hge,
      oneOfTraceAux_guard_error input c cs 0 g e hc hge⟩
  · intro c cs rej hg hs
    refine ⟨pipelineSiftAux_child_error input c cs none e hg hs, ?_,
      oneOfSiftAux_child_error input rej c cs e hg hs, ?_⟩
    · rw [pipelineTrace, pipelineTraceAux_eval input c cs 0 hg, hs]
    · rw [oneOfTrace, oneOfTraceAux_eval input c cs 0 hg, hs]
  · intro cs ds h
    exact ⟨pipelineSiftAux_append_error input cs ds none e h,
      pipelineTraceAux_append_error input cs ds 0 none e h⟩
  · intro cs ds rej h
    exact ⟨oneOfSiftAux_append_error input rej cs ds e h,
      oneOfTraceAux_append_error input rej cs ds 0 e h⟩
  · intro u now st k L h1 h2 h3 h4
    simp [SifterUnit.sift, h1, h2, h3, h4]

/-- Witness for the C6 theorem at concrete failing sifters on the test input:
a guard error, a failing child inside Pipeline and OneOf, and a rate-limit
sifter with a failing limiter. -/
theorem sift_error_propagation_witness :
    (((WithMod acceptAllS).OnlyIf (errorS "boom")).onlyIfCond =
       some { cond := errorS "boom", ifAccepted := true }) ∧
    (evalCond { cond := errorS "boom", ifAccepted := true } testInput =
       Except.error "boom") ∧
    (pipelineSift [(WithMod acceptAllS).OnlyIf (errorS "boom"), WithMod acceptAllS] testInput =
       Except.error "boom") ∧
    ((WithMod (errorS "boom")).s testInput = Except.error "boom") ∧
    (oneOfSift [WithMod (errorS "boom"), WithMod acceptAllS] RejectionFn.shadowReject
       testInput = Except.error "boom") ∧
    (SifterUnit.sift
       { selectLimiter := fun _ => some (fun _ _ _ => Except.error "boom"),
         deriveLimitKey := fun _ => (true, "k"), exclude := fun _ => false,
         reject := RejectionFn.rejectWithMsg "m" } testInput 0 [] = Except.error "boom") :=
  ⟨rfl, rfl,
   ((sift_error_propagation testInput "boom").1
      ((WithMod acceptAllS).OnlyIf (errorS "boom"))
      { cond := errorS "boom", ifAccepted := true }
      [WithMod acceptAllS] RejectionFn.shadowReject rfl rfl).1,
   rfl,
   ((sift_error_propagation testInput "boom").2.1 (WithMod (errorS "boom"))
      [WithMod acceptAllS] RejectionFn.shadowReject (Or.inl rfl) rfl).2.2.1,
   (sift_error_propagation testInput "boom").2.2.2.2
      { selectLimiter := fun _ => some (fun _ _ _ => Except.error "boom"),
        deriveLimitKey := fun _ => (true, "k"), exclude := fun _ => false,
        reject := RejectionFn.rejectWithMsg "m" } 0 [] "k"
      (fun _ _ _ => Except.error "boom") rfl rfl rfl rfl⟩


/-- GCRA check on an existing TAT, admitting case. -/
theorem gcraCheck_admit (T : Int) (B : Nat) (now tat : Int)
    (hcond : tat - (B : Int) * T ≤ now) (hmax : now ≤ tat) :
    gcraCheck T B now (some tat) = (true, some (tat + T)) := by
  simp only [gcraCheck, Option.getD_some]
  rw [if_pos hcond, max_eq_left hmax]

/-- GCRA check on an existing TAT, denying case. -/
theorem gcraCheck_deny (T : Int) (B : Nat) (now tat : Int)
    (hcond : ¬(tat - (B : Int) * T ≤ now)) :
    gcraCheck T B now (some tat) = (false, some tat) := by
  simp only [gcraCheck, Option.getD_some]
  rw [if_neg hcond]

/-- GCRA check on a fresh key always admits (for a nonnegative burst window). -/
theorem gcraCheck_first (T : Int) (B : Nat) (now : Int) (h : 0 ≤ (B : Int) * T) :
    gcraCheck T B now none = (true, some (now + T)) := by
  simp only [gcraCheck, Option.getD_none]
  rw [if_pos (by linarith), max_self]

/-- Splitting a run of GCRA checks. -/
theorem gcraRun_append (T : Int) (B : Nat) :
    ∀ (ts us : List Int) (st : Option Int),
      gcraRun T B (ts ++ us) st =
        ((gcraRun T B ts st).1 ++ (gcraRun T B us (gcraRun T B ts st).2).1,
         (gcraRun T B us (gcraRun T B ts st).2).2) := by
  intro ts
  induction ts with
  | nil => intro us st; simp [gcraRun]
  | cons t ts ih =>
      intro us st
      simp only [List.cons_append, gcraRun, List.append_eq]
      rw [ih us (gcraCheck T B t st).2]

/-- While within the burst window, back-to-back requests at one instant are all
admitted and each admission advances the TAT by one emission interval. -/
theorem gcraRun_replicate_admit (T : Int) (B : Nat) (t0 : Int) (hT : 0 < T) :
    ∀ (k j : Nat), 1 ≤ j → j + k ≤ B + 1 →
      gcraRun T B (List.replicate k t0) (some (t0 + (j : Int) * T)) =
        (List.replicate k true, some (t0 + ((j : Int) + (k : Int)) * T)) := by
  intro k
  induction k with
  | zero => intro j h1 h2; simp [gcraRun]
  | succ k ih =>
      intro j h1 h2
      rw [List.replicate_succ]
      have hj : (j : Int) ≤ (B : Int) := by exact_mod_cast (by omega : j ≤ B)
      have hj0 : (0 : Int) ≤ (j : Int) := by positivity
      have hcheck : gcraCheck T B t0 (some (t0 + (j : Int) * T)) =
          (true, some (t0 + (j : Int) * T + T)) := by
        apply gcraCheck_admit
        · nlinarith
        · nlinarith
      simp only [gcraRun, hcheck]
      have heq : t0 + (j : Int) * T + T = t0 + ((j + 1 : Nat) : Int) * T := by
        push_cast
        ring
      rw [heq, ih (j + 1) (by omega) (by omega)]
      simp only [List.replicate_succ, Prod.mk.injEq]
      refine ⟨trivial, ?_⟩
      congr 1
      push_cast
      ring

/-- From a saturated TAT, requests at a later instant heal at one admission per
emission interval: at time t0 + k*T exactly k further admissions fit. -/
theorem gcraRun_heal_admits (T : Int) (B : Nat) (t0 : Int) (hT : 0 < T) (k : Nat)
    (hk : k ≤ B + 1) :
    ∀ (m j : Nat), j + m ≤ k →
      gcraRun T B (List.replicate m (t0 + (k : Int) * T))
          (some (t0 + ((B : Int) + 1 + (j : Int)) * T)) =
        (List.replicate m true,
         some (t0 + ((B : Int) + 1 + (j : Int) + (m : Int)) * T)) := by
  intro m
  induction m with
  | zero => intro j h; simp [gcraRun]
  | succ m ih =>
      intro j h
      rw [List.replicate_succ]
      have h1 : (1 : Int) + (j : Int) ≤ (k : Int) := by
        exact_mod_cast (by omega : 1 + j ≤ k)
      have h2 : (k : Int) ≤ (B : Int) + 1 + (j : Int) := by
        exact_mod_cast (by omega : k ≤ B + 1 + j)
      have hcheck : gcraCheck T B (t0 + (k : Int) * T)
          (some (t0 + ((B : Int) + 1 + (j : Int)) * T)) =
          (true, some (t0 + ((B : Int) + 1 + (j : Int)) * T + T)) := by
        apply gcraCheck_admit
        · nlinarith
        · nlinarith
      simp only [gcraRun, hcheck]
      have heq : t0 + ((B : Int) + 1 + (j : Int)) * T + T =
          t0 + ((B : Int) + 1 + ((j + 1 : Nat) : Int)) * T := by
        push_cast
        ring
      rw [heq, ih (j + 1) (by omega)]
      simp only [List.replicate_succ, Prod.mk.injEq]
      refine ⟨trivial, ?_⟩
      congr 1
      push_cast
      ring


/-- C4 (spec-modelled GCRA): with emission interval T = duration/rate and burst
B, B+1 requests at one instant are admitted and the next is denied; a denied
request leaves the stored theoretical arrival time unchanged; from the
saturated state, capacity heals at one admission per T (at time t0 + k*T
exactly k further admissions fit, the next is denied); and in particular the
ByUser sifter with rate 1/sec and burst 0 accepts a first request at t = 0,
rejects a second at t = 0 for the same key with the store unchanged, and
accepts a request at t = 1. -/
theorem gcra_admission (T : Int) (B : Nat) (t0 : Int) (hT : 0 < T) :
    ((gcraRun T B (List.replicate (B + 2) t0) none).1 =
       List.replicate (B + 1) true ++ [false]) ∧
    (∀ (now : Int) (st : Option Int),
       (gcraCheck T B now st).1 = false → (gcraCheck T B now st).2 = st) ∧
    (∀ k : Nat, 1 ≤ k → k ≤ B + 1 →
       (gcraRun T B (List.replicate (k + 1) (t0 + (k : Int) * T))
           (some (t0 + ((B : Int) + 1) * T))).1 =
         List.replicate k true ++ [false]) ∧
    ((ByUser (fun _ => true) 1 0 PubKey).sift testInput 0 [] =
       Except.ok (Input.Accept testInput, [("pk1", 1)]) ∧
     (ByUser (fun _ => true) 1 0 PubKey).sift testInput 0 [("pk1", 1)] =
       Except.ok (Input.Reject testInput "rate-limited: rate limit exceeded", [("pk1", 1)]) ∧
     (ByUser (fun _ => true) 1 0 PubKey).sift testInput 1 [("pk1", 1)] =
       Except.ok (Input.Accept testInput, [("pk1", 2)])) := by
  have hBT : (0 : Int) ≤ (B : Int) * T := by positivity
  refine ⟨?_, ?_, ?_, rfl, rfl, rfl⟩
  · have e1 : List.replicate (B + 2) t0 = t0 :: (List.replicate B t0 ++ [t0]) := by
      rw [show B + 2 = (B + 1) + 1 from rfl, List.replicate_succ, List.replicate_succ']
    have hadmit := gcraRun_replicate_admit T B t0 hT B 1 (by omega) (by omega)
    rw [show t0 + ((1 : Nat) : Int) * T = t0 + T by push_cast; ring] at hadmit
    have hdeny : gcraCheck T B t0 (some (t0 + (((1 : Nat) : Int) + (B : Int)) * T)) =
        (false, some (t0 + (((1 : Nat) : Int) + (B : Int)) * T)) := by
      apply gcraCheck_deny
      have hB0 : (0 : Int) ≤ (B : Int) := by positivity
      push_cast
      nlinarith
    rw [e1]
    simp only [gcraRun, gcraCheck_first T B t0 hBT]
    rw [gcraRun_append T B (List.replicate B t0) [t0] (some (t0 + T)), hadmit]
    simp only [gcraRun, hdeny]
    simp [List.replicate_succ]
  · intro now st h
    simp only [gcraCheck] at h ⊢
    split_ifs at h ⊢
    rfl
  · intro k hk1 hk2
    have hheal := gcraRun_heal_admits T B t0 hT k hk2 k 0 (by omega)
    rw [show (B : Int) + 1 + ((0 : Nat) : Int) = (B : Int) + 1 by push_cast; ring] at hheal
    have hdeny : gcraCheck T B (t0 + (k : Int) * T)
        (some (t0 + ((B : Int) + 1 + (k : Int)) * T)) =
        (false, some (t0 + ((B : Int) + 1 + (k : Int)) * T)) := by
      apply gcraCheck_deny
      have hk : (1 : Int) ≤ (k : Int) := by exact_mod_cast hk1
      nlinarith
    rw [List.replicate_succ']
    rw [gcraRun_append T B (List.replicate k (t0 + (k : Int) * T)) [t0 + (k : Int) * T]
      (some (t0 + ((B : Int) + 1) * T)), hheal]
    simp only [gcraRun, hdeny]

/-- Witness for the C4 theorem at the concrete quota of the spec scenario:
emission interval 1 (rate 1 per second), burst 0, starting instant 0. -/
theorem gcra_admission_witness :
    (0 : Int) < 1 ∧
    ((gcraRun 1 0 (List.replicate (0 + 2) (0 : Int)) none).1 =
       List.replicate (0 + 1) true ++ [false]) ∧
    (∀ (now : Int) (st : Option Int),
       (gcraCheck 1 0 now st).1 = false → (gcraCheck 1 0 now st).2 = st) ∧
    (∀ k : Nat, 1 ≤ k → k ≤ 0 + 1 →
       (gcraRun 1 0 (List.replicate (k + 1) ((0 : Int) + (k : Int) * 1))
           (some ((0 : Int) + ((0 : Int) + 1) * 1))).1 =
         List.replicate k true ++ [false]) ∧
    ((ByUser (fun _ => true) 1 0 PubKey).sift testInput 0 [] =
       Except.ok (Input.Accept testInput, [("pk1", 1)]) ∧
     (ByUser (fun _ => true) 1 0 PubKey).sift testInput 0 [("pk1", 1)] =
       Except.ok (Input.Reject testInput "rate-limited: rate limit exceeded", [("pk1", 1)]) ∧
     (ByUser (fun _ => true) 1 0 PubKey).sift testInput 1 [("pk1", 1)] =
       Except.ok (Input.Accept testInput, [("pk1", 2)])) :=
  ⟨by norm_num, gcra_admission 1 0 0 (by norm_num)⟩


/-- ByUser key derivation yields shouldLimit = false for non-end-user sources
and for the IPAddr mode with an invalid address. -/
theorem byUserDerive_false (isValid : String → Bool) (uk : Int) (input : Input)
    (h : isEndUser input.sourceType = false ∨
         (uk = IPAddr ∧ isValid input.sourceInfo = false)) :
    byUserDeriveLimitKey isValid uk input = (false, "") := by
  unfold byUserDeriveLimitKey
  rcases h with h | ⟨h1, h2⟩
  · simp [h]
  · subst h1
    by_cases hEU : isEndUser input.sourceType
    · simp [hEU, h2]
    · simp [hEU]

/-- ByUserAndKind key derivation yields shouldLimit = false for non-end-user
sources and for the IPAddr mode with an invalid address. -/
theorem byUserAndKindDerive_false (isValid : String → Bool) (uk : Int) (input : Input)
    (h : isEndUser input.sourceType = false ∨
         (uk = IPAddr ∧ isValid input.sourceInfo = false)) :
    byUserAndKindDeriveLimitKey isValid uk input = (false, "") := by
  unfold byUserAndKindDeriveLimitKey
  rcases h with h | ⟨h1, h2⟩
  · simp [h]
  · subst h1
    by_cases hEU : isEndUser input.sourceType
    · simp [hEU, h2]
    · simp [hEU]

/-- ByUser key derivation yields shouldLimit = false for a UserKey value other
than IPAddr and PubKey (the default branch of the Go switch). -/
theorem byUserDerive_unknown (isValid : String → Bool) (uk : Int) (input : Input)
    (h1 : uk ≠ IPAddr) (h2 : uk ≠ PubKey) :
    byUserDeriveLimitKey isValid uk input = (false, "") := by
  unfold byUserDeriveLimitKey
  by_cases hEU : isEndUser input.sourceType
  · simp [hEU, h1, h2]
  · simp [hEU]

/-- ByUserAndKind key derivation yields shouldLimit = false for a UserKey value
other than IPAddr and PubKey. -/
theorem byUserAndKindDerive_unknown (isValid : String → Bool) (uk : Int) (input : Input)
    (h1 : uk ≠ IPAddr) (h2 : uk ≠ PubKey) :
    byUserAndKindDeriveLimitKey isValid uk input = (false, "") := by
  unfold byUserAndKindDeriveLimitKey
  by_cases hEU : isEndUser input.sourceType
  · simp [hEU, h1, h2]
  · simp [hEU]

/-- C7: the rate-limiting sifters ByUser and ByUserAndKind (with any configured
exclusion predicate) return Accept whenever the input's source is not an
end-user, or the exclusion predicate matches, or the identity source is the
source IP address (IPAddr) and it is not a syntactically valid address - for
every such input and every limiter store, and the store is returned untouched
(no limiter state is consulted or mutated). -/
theorem ratelimit_bypass (isValid : String → Bool) (uk : Int) (T : Int) (B : Nat)
    (quotas : List QuotaForKinds) (excl : Input → Bool) (input : Input) (now : Int)
    (st : Store)
    (h : isEndUser input.sourceType = false ∨ excl input = true ∨
         (uk = IPAddr ∧ isValid input.sourceInfo = false)) :
    ((ByUser isValid T B uk).Exclude excl).sift input now st =
      Except.ok (input.Accept, st) ∧
    ((ByUserAndKind isValid quotas uk).Exclude excl).sift input now st =
      Except.ok (input.Accept, st) := by
  by_cases hex : excl input
  · constructor <;> simp [SifterUnit.sift, SifterUnit.Exclude, hex]
  · have hex' : excl input = false := by simpa using hex
    have hd : isEndUser input.sourceType = false ∨
        (uk = IPAddr ∧ isValid input.sourceInfo = false) := by
      rcases h with h | h | h
      · exact Or.inl h
      · rw [hex'] at h; cases h
      · exact Or.inr h
    constructor
    · simp [SifterUnit.sift, SifterUnit.Exclude, ByUser, hex',
        byUserDerive_false isValid uk input hd]
    · simp [SifterUnit.sift, SifterUnit.Exclude, ByUserAndKind, hex',
        byUserAndKindDerive_false isValid uk input hd]

/-- Witness for the C7 theorem at a concrete non-end-user input (sourceType
"Import") with the trivial exclusion predicate. -/
theorem ratelimit_bypass_witness :
    (isEndUser ({ event := testEvent, sourceType := "Import", sourceInfo := "" } :
        Input).sourceType = false ∨
     (fun (_ : Input) => false)
       ({ event := testEvent, sourceType := "Import", sourceInfo := "" } : Input) = true ∨
     ((2 : Int) = IPAddr ∧ (fun (_ : String) => true)
        ({ event := testEvent, sourceType := "Import", sourceInfo := "" } :
          Input).sourceInfo = false)) ∧
    (((ByUser (fun _ => true) 1 0 2).Exclude (fun _ => false)).sift
       ({ event := testEvent, sourceType := "Import", sourceInfo := "" } : Input) 0 [] =
       Except.ok (Input.Accept
         ({ event := testEvent, sourceType := "Import", sourceInfo := "" } : Input), []) ∧
     ((ByUserAndKind (fun _ => true) [] 2).Exclude (fun _ => false)).sift
       ({ event := testEvent, sourceType := "Import", sourceInfo := "" } : Input) 0 [] =
       Except.ok (Input.Accept
         ({ event := testEvent, sourceType := "Import", sourceInfo := "" } : Input), [])) :=
  ⟨Or.inl rfl,
   ratelimit_bypass (fun _ => true) 2 1 0 [] (fun _ => false)
     ({ event := testEvent, sourceType := "Import", sourceInfo := "" } : Input) 0 []
     (Or.inl rfl)⟩

/-- C8: multi-quota dispatch of ByUserAndKind.  If no quota entry's kind
predicate matches the event's kind, the input is accepted with the store
untouched, regardless of the store contents (frequency and other quotas'
state); if some entry is the first match, the sifter's outcome is exactly the
GCRA admission check with that entry's parameters at the derived key: Accept on
admission, the configured rejection on denial, with the store updated by that
check alone. -/
theorem ratelimit_multi_quota_dispatch (isValid : String → Bool) (uk : Int)
    (quotas : List QuotaForKinds) (input : Input) (now : Int) (st : Store) :
    (quotas.find? (fun q => q.matchKind input.event.kind) = none →
       (ByUserAndKind isValid quotas uk).sift input now st =
         Except.ok (input.Accept, st)) ∧
    (∀ q, quotas.find? (fun q => q.matchKind input.event.kind) = some q →
       ∀ k, byUserAndKindDeriveLimitKey isValid uk input = (true, k) →
         (ByUserAndKind isValid quotas uk).sift input now st =
           Except.ok
             ((if (gcraCheckStore q.T q.B now k st).1 then input.Accept
               else applyRejectionFn
                 (RejectionFn.rejectWithMsg "rate-limited: rate limit exceeded") input),
              (gcraCheckStore q.T q.B now k st).2)) := by
  constructor
  · intro hfind
    rcases hd : byUserAndKindDeriveLimitKey isValid uk input with ⟨b, key⟩
    cases b with
    | false => simp [SifterUnit.sift, ByUserAndKind, hd]
    | true =>
        simp [SifterUnit.sift, ByUserAndKind, hd, selectRateLimiterForKind, hfind]
  · intro q hfind k hd
    cases hadm : (gcraCheckStore q.T q.B now k st).1 with
    | true =>
        simp [SifterUnit.sift, ByUserAndKind, hd, selectRateLimiterForKind, hfind,
          gcraLimiter, hadm]
    | false =>
        simp [SifterUnit.sift, ByUserAndKind, hd, selectRateLimiterForKind, hfind,
          gcraLimiter, hadm]

/-- Witness for the C8 theorem: one quota for kind 1 (emission interval 60,
burst 0); an event of kind 1 dispatches to it, and an event of kind 7 (matching
no entry) is accepted with the store untouched. -/
theorem ratelimit_multi_quota_dispatch_witness :
    (List.find? (fun q => q.matchKind testInput.event.kind)
       [({ matchKind := fun k => k == 1, T := 60, B := 0 } : QuotaForKinds)] =
       some { matchKind := fun k => k == 1, T := 60, B := 0 }) ∧
    (byUserAndKindDeriveLimitKey (fun _ => true) PubKey testInput = (true, "pk1/1")) ∧
    ((ByUserAndKind (fun _ => true)
        [{ matchKind := fun k => k == 1, T := 60, B := 0 }] PubKey).sift
        testInput 5 [] = Except.ok (Input.Accept testInput, [("pk1/1", 65)])) ∧
    (List.find? (fun q => q.matchKind
         ({ event := { id := "ev2", pubkey := "pk1", kind := 7 }, sourceType := "IP4",
            sourceInfo := "203.0.113.7" } : Input).event.kind)
       [({ matchKind := fun k => k == 1, T := 60, B := 0 } : QuotaForKinds)] = none) ∧
    ((ByUserAndKind (fun _ => true)
        [{ matchKind := fun k => k == 1, T := 60, B := 0 }] PubKey).sift
        ({ event := { id := "ev2", pubkey := "pk1", kind := 7 },
           sourceType := "IP4", sourceInfo := "203.0.113.7" } : Input) 5 [("pk1/1", 65)] =
       Except.ok (Input.Accept
         ({ event := { id := "ev2", pubkey := "pk1", kind := 7 },
             sourceType := "IP4", sourceInfo := "203.0.113.7" } : Input), [("pk1/1", 65)])) := by
  refine ⟨rfl, rfl, ?_, rfl, ?_⟩
  · rw [(ratelimit_multi_quota_dispatch (fun _ => true) PubKey
      [{ matchKind := fun k => k == 1, T := 60, B := 0 }] testInput 5 []).2
      { matchKind := fun k => k == 1, T := 60, B := 0 } rfl "pk1/1" rfl]
    rfl
  · exact (ratelimit_multi_quota_dispatch (fun _ => true) PubKey
      [{ matchKind := fun k => k == 1, T := 60, B := 0 }]
      ({ event := { id := "ev2", pubkey := "pk1", kind := 7 },
         sourceType := "IP4", sourceInfo := "203.0.113.7" } : Input) 5 [("pk1/1", 65)]).1 rfl

/-- C10: a ByUser or ByUserAndKind sifter configured with a UserKey value other
than IPAddr (1) and PubKey (2) accepts every input with the limiter store
untouched: the key derivation's default branch returns shouldLimit = false, so
an unrecognized user-key configuration fails open. -/
theorem ratelimit_unknown_userkey (isValid : String → Bool) (T : Int) (B : Nat)
    (quotas : List QuotaForKinds) (uk : Int) (input : Input) (now : Int) (st : Store)
    (h1 : uk ≠ IPAddr) (h2 : uk ≠ PubKey) :
    (ByUser isValid T B uk).sift input now st = Except.ok (input.Accept, st) ∧
    (ByUserAndKind isValid quotas uk).sift input now st =
      Except.ok (input.Accept, st) := by
  constructor
  · simp [SifterUnit.sift, ByUser, byUserDerive_unknown isValid uk input h1 h2]
  · simp [SifterUnit.sift, ByUserAndKind,
      byUserAndKindDerive_unknown isValid uk input h1 h2]

/-- Witness for the C10 theorem at the unrecognized UserKey value 7, on the
end-user test input. -/
theorem ratelimit_unknown_userkey_witness :
    (7 : Int) ≠ IPAddr ∧ (7 : Int) ≠ PubKey ∧
    ((ByUser (fun _ => true) 1 0 7).sift testInput 0 [] =
       Except.ok (Input.Accept testInput, []) ∧
     (ByUserAndKind (fun _ => true)
        [{ matchKind := fun _ => true, T := 60, B := 0 }] 7).sift testInput 0 [] =
       Except.ok (Input.Accept testInput, [])) :=
  ⟨by decide, by decide,
   ratelimit_unknown_userkey (fun _ => true) 1 0
     [{ matchKind := fun _ => true, T := 60, B := 0 }] 7 testInput 0 []
     (by decide) (by decide)⟩

end Strfrui
